import Mathlib

/-!
# Verification of the streamed-tui stream-discovery pipeline

This file gives a shallow embedding, in Lean 4, of the stream-discovery
pipeline of the `streamed-tui` repository — the header derivation and
normalization (`deriveHeaders`, `lookupHeaderValue`), the mpv launch
argument construction (`LaunchMPVWithHeaders`), the static embed-page
fetch (`fetchHTML`), and the browser resolver's response classification,
capture tie-break, DOM fallback and header enrichment (the Puppeteer
runner emitted by `writePuppeteerRunner` in `internal/extractor.go`) —
together with theorems settling the specification's claims about them.

Go maps are modelled as association lists in iteration order (Go map
iteration order is unspecified, so order-sensitivity of results shows up
as sensitivity to permutations of the list).  JavaScript objects used as
header maps are modelled the same way, with exact-key get/set.  External
primitives (the browser's `new URL` resolution, the JS regex engine, the
HTTP transport, the process spawns) are modelled as explicit function
parameters or outcome records, so every repository-side computation is
an executable Lean definition.
-/

namespace StreamedTUI

/-! ## String primitives

The Go and JS code uses `strings.EqualFold`, `String.prototype.includes`,
`trim`, `toLowerCase`, `startsWith('#')` and `split(/\r?\n/)`.  These are
modelled on `List Char` (the character data of a `String`) so that every
definition evaluates by kernel reduction. -/

/-- Predicate `charsPrefixOf pat l`: holds when `pat` is a prefix of `l`. -/
def charsPrefixOf : List Char → List Char → Bool
  | [], _ => true
  | _ :: _, [] => false
  | a :: as, b :: bs => a == b && charsPrefixOf as bs

/-- Predicate `charsInfixOf pat l`: holds when `pat` occurs contiguously inside `l`. -/
def charsInfixOf : List Char → List Char → Bool
  | pat, [] => charsPrefixOf pat []
  | pat, l@(_ :: rest) => charsPrefixOf pat l || charsInfixOf pat rest

/-- Models Go `strings.Contains s pat` and JS `s.includes(pat)`:
`pat` occurs as a contiguous substring of `s`. -/
def strContains (s pat : String) : Bool :=
  charsInfixOf pat.data s.data

/-- ASCII-lowering of a character list, modelling `String.prototype.toLowerCase`
and the case folding of `strings.EqualFold` on ASCII header names. -/
def lowerChars (l : List Char) : List Char :=
  l.map Char.toLower

/-- Models Go `strings.EqualFold a b` (restricted to ASCII, which covers
all header names the program uses). -/
def eqFold (a b : String) : Bool :=
  lowerChars a.data == lowerChars b.data

/-- Models JS `s.toLowerCase().includes(pat)`. -/
def lowerContains (s pat : String) : Bool :=
  charsInfixOf pat.data (lowerChars s.data)

/-- Whitespace trimming on character lists, modelling `strings.TrimSpace` /
JS `String.prototype.trim` on the ASCII whitespace the program meets. -/
def trimChars (l : List Char) : List Char :=
  ((l.dropWhile Char.isWhitespace).reverse.dropWhile Char.isWhitespace).reverse

/-- Splits a character list at every `\n`, also consuming a `\r` that
immediately precedes the `\n`, modelling JS `body.split(/\r?\n/)`.
The accumulator carries the current line reversed. -/
def splitLinesAux : List Char → List Char → List (List Char)
  | [], acc => [acc.reverse]
  | '\r' :: '\n' :: rest, acc => acc.reverse :: splitLinesAux rest []
  | '\n' :: rest, acc => acc.reverse :: splitLinesAux rest []
  | c :: rest, acc => splitLinesAux rest (c :: acc)

/-- The lines of a string under JS `split(/\r?\n/)`. -/
def splitLines (s : String) : List (List Char) :=
  splitLinesAux s.data []

/-! ## Header maps

A Go `map[string]string` is modelled as an association list in iteration
order.  Go guarantees unique keys but deliberately leaves iteration order
unspecified (the runtime randomizes it), so any dependence of a result on
the order of the list is a dependence on a per-run roll of the dice. -/

/-- A header map in one concrete iteration order. -/
abbrev HeaderMap := List (String × String)

/-- Function `lookupHeaderValue hdrs name` (internal/extractor.go): returns the first
header value whose key equals `name` under `strings.EqualFold`, or `""`.
The `for k, v := range hdrs` loop is modelled by traversing the list in
its (iteration) order. -/
def lookupHeaderValue (hdrs : HeaderMap) (name : String) : String :=
  match hdrs.find? (fun p => eqFold p.1 name) with
  | some p => p.2
  | none => ""

/-! ## PlayerLauncher: `LaunchMPVWithHeaders` (internal/extractor.go) -/

/-- The `headerKeys` table of `LaunchMPVWithHeaders`: lookup key paired with
display casing, in the fixed order User-Agent, Origin, Referer. -/
def mpvHeaderKeys : List (String × String) :=
  [("user-agent", "User-Agent"), ("origin", "Origin"), ("referer", "Referer")]

/-- One `--http-header-fields=Name: value` flag. -/
def mpvHeaderFlag (display v : String) : String :=
  "--http-header-fields=" ++ display ++ ": " ++ v

/-- The argument list built by `LaunchMPVWithHeaders` (after its empty-URL
check): quiet flags when not attached, then the header-flag loop over
`mpvHeaderKeys`, then the playlist URL. -/
def buildMPVArgs (m3u8 : String) (hdrs : HeaderMap) (attachOutput : Bool) : List String :=
  let args : List String := if !attachOutput then ["--no-terminal", "--really-quiet"] else []
  let args := mpvHeaderKeys.foldl
    (fun a hk =>
      let v := lookupHeaderValue hdrs hk.1
      if v ≠ "" then a ++ [mpvHeaderFlag hk.2 v] else a)
    args
  args ++ [m3u8]

/-- The header flags alone, in the fixed User-Agent/Origin/Referer order:
the part of the argument list contributed by the header loop. -/
def mpvHeaderFlags (hdrs : HeaderMap) : List String :=
  mpvHeaderKeys.filterMap
    (fun hk =>
      let v := lookupHeaderValue hdrs hk.1
      if v ≠ "" then some (mpvHeaderFlag hk.2 v) else none)

/-- Result of `LaunchMPVWithHeaders` up to the external process spawn: the
empty-URL guard, then the argument list handed to `mpv`. -/
def launchMPVArgs (m3u8 : String) (hdrs : HeaderMap) (attachOutput : Bool) :
    Except String (List String) :=
  if m3u8 = "" then .error "empty m3u8 URL"
  else .ok (buildMPVArgs m3u8 hdrs attachOutput)

/-! ## HeaderDeriver: `deriveHeaders` (internal/stream_utils.go)

URL parsing (`net/url.Parse` in Go, `new URL` in JS) is an external
library primitive; the scheme/host split it performs on well-formed
absolute URLs is modelled concretely by `goParseURL`, and the derivation
is stated over an arbitrary parser so nothing depends on the model's
fringe behavior. -/

/-- The scheme and host (including any port) of a parsed absolute URL. -/
structure URLParts where
  scheme : String
  host : String
  deriving DecidableEq, Repr

/-- Splits `l` at the first occurrence of `pat`, returning the parts before
and after it. -/
def splitFirst (pat : List Char) : List Char → Option (List Char × List Char)
  | [] => if pat = [] then some ([], []) else none
  | l@(c :: rest) =>
    if charsPrefixOf pat l then some ([], l.drop pat.length)
    else match splitFirst pat rest with
      | some (before, after) => some (c :: before, after)
      | none => none

/-- Models the scheme/host extraction of `net/url.Parse` (and of the
browser's `new URL`) on absolute URLs of the form `scheme://host[/path…]`:
the scheme is everything before the first `://`, the host everything after
it up to the next `/`.  Inputs outside that well-formed fragment are out of
the model's scope and map to `none`. -/
def goParseURL (s : String) : Option URLParts :=
  match splitFirst "://".data s.data with
  | none => none
  | some (sch, rest) => some ⟨⟨sch⟩, ⟨rest.takeWhile (· ≠ '/')⟩⟩

/-- The fixed Firefox user agent returned by `deriveHeaders`. -/
def firefoxUserAgent : String :=
  "Mozilla/5.0 (X11; Linux x86_64; rv:144.0) Gecko/20100101 Firefox/144.0"

/-- Function `deriveHeaders` (internal/stream_utils.go): empty-input guard, URL parse,
then either the canonical `embedsports` origin/referer pair (when the host
contains `"embedsports"`) or `https://<host>` and `https://<host>/`.
`parse` stands for `net/url.Parse`. -/
def deriveHeaders (parse : String → Option URLParts) (embed : String) :
    Except String (String × String × String) :=
  if embed = "" then .error "empty embed url"
  else
    match parse embed with
    | none => .error "parse url"
    | some u =>
      if strContains u.host "embedsports" then
        .ok ("https://embedsports.top", "https://embedsports.top/", firefoxUserAgent)
      else
        .ok ("https://" ++ u.host, "https://" ++ u.host ++ "/", firefoxUserAgent)

/-! ## Static fetch: `fetchHTML` (internal/stream_utils.go)

The HTTP transport is external; it is modelled as a function from the
request (URL and header list) to either a transport error (which subsumes
the client timeout) or a response.  Reading the response body may itself
fail, so the body is an `Except`. -/

/-- An HTTP response as `fetchHTML` sees it: the status code and the
outcome of reading the body. -/
structure HTTPResponse where
  statusCode : Nat
  body : Except String String

/-- The request headers `fetchHTML` sets before issuing the GET. -/
def fetchRequestHeaders (ua origin referer : String) : HeaderMap :=
  [("User-Agent", ua), ("Origin", origin), ("Referer", referer),
   ("Accept", "*/*"), ("Accept-Language", "en-US,en;q=0.5")]

/-- Function `fetchHTML` (internal/stream_utils.go): issues the GET with the derived
headers via the transport `doReq` and returns the body text.  Note the
source inspects no status code: any response whose body reads successfully
is returned as-is. -/
def fetchHTML (embed ua origin referer : String)
    (doReq : String → HeaderMap → Except String HTTPResponse) :
    Except String String :=
  match doReq embed (fetchRequestHeaders ua origin referer) with
  | .error e => .error e
  | .ok resp =>
    match resp.body with
    | .error e => .error e
    | .ok b => .ok b

/-! ## BrowserResolver: the Puppeteer runner (internal/extractor.go,
`writePuppeteerRunner`)

The runner's response handler, capture tie-break, DOM fallback and header
enrichment are pure JavaScript over the captured data; they are embedded
here directly.  `resolve` stands for the browser's `new URL(line, base)`
constructor (returning `none` where it would throw), `htmlMatch` for the
regex engine evaluating
`html.match(/https?:\/\/[^'"\s]+\.m3u8[^'"\s]*\/i)`. -/

/-- A network response as the runner's `page.on('response')` handler sees
it: its URL, the originating request's headers, and its body text (a body
whose read failed is left as `''` by the handler's catch). -/
structure NetResponse where
  url : String
  headers : HeaderMap
  body : String

/-- The runner's single-slot capture: final URL, request headers, and
whether the body carried the `#EXTINF` leaf-segment marker. -/
structure Capture where
  url : String
  headers : HeaderMap
  hasExtinf : Bool
  deriving DecidableEq

/-- The runner's `findNestedPlaylist(body, baseUrl)`: walks the body's lines; the first
trimmed line that is non-empty, does not start with `#`, and contains
`.m3u8` case-insensitively is resolved against `baseUrl` (falling back to
the raw line when `new URL` throws).  Returns `''` when the body is empty
or no line qualifies. -/
def findNestedPlaylistGo (resolve : String → String → Option String)
    (base : String) : List (List Char) → String
  | [] => ""
  | raw :: rest =>
    let line := trimChars raw
    if line.isEmpty || line.head? == some '#' then
      findNestedPlaylistGo resolve base rest
    else if charsInfixOf ".m3u8".data (lowerChars line) then
      match resolve ⟨line⟩ base with
      | some u => u
      | none => String.mk line
    else
      findNestedPlaylistGo resolve base rest

/-- Wrapper `findNestedPlaylist` on a whole body string (the `if (!body) return ''`
guard, then the line walk). -/
def findNestedPlaylist (resolve : String → String → Option String)
    (body base : String) : String :=
  if body = "" then "" else findNestedPlaylistGo resolve base (splitLines body)

/-- The classification performed by `handleM3U8Response`: `hasExtinf` is
`body && body.includes('#EXTINF')`; the final URL is the response's own URL,
except that a non-EXTINF body with a nested playlist reference redirects the
final URL to the resolved nested reference. -/
def classifyResponse (resolve : String → String → Option String)
    (r : NetResponse) : String × Bool :=
  let hasExtinf := strContains r.body "#EXTINF"
  let nested := findNestedPlaylist resolve r.body r.url
  let finalUrl := if hasExtinf then r.url else if nested ≠ "" then nested else r.url
  (finalUrl, hasExtinf)

/-- One observed response applied to the single-slot capture state: the
`page.on('response')` filter drops URLs without `.m3u8`; `handleM3U8Response`
then publishes into the slot when it is empty or the new body carries
`#EXTINF` (`if (!captured || hasExtinf)`). -/
def captureStep (resolve : String → String → Option String)
    (captured : Option Capture) (r : NetResponse) : Option Capture :=
  if strContains r.url ".m3u8" then
    let c := classifyResponse resolve r
    if captured.isNone || c.2 then some ⟨c.1, r.headers, c.2⟩ else captured
  else captured

/-- The capture selected after a sequence of responses observed during the
wait window, all before the waiter consumes the signal. -/
def runCaptures (resolve : String → String → Option String)
    (rs : List NetResponse) : Option Capture :=
  rs.foldl (captureStep resolve) none

/-! ### DOM fallback -/

/-- The `<video>` element as the fallback's `page.evaluate` reads it:
`currentSrc`, the explicit `src` attribute, and the `src` of a nested
`<source>` element when one exists (`''` fields are JS-falsy). -/
structure VideoEl where
  currentSrc : String
  src : String
  sourceSrc : Option String

/-- The rendered document as the fallback sees it: an optional `<video>`
element and the full rendered HTML. -/
structure DOMState where
  video : Option VideoEl
  html : String

/-- The candidate computed by the fallback's single `page.evaluate` call:
the video element's `currentSrc`, else its `src`, else a nested `<source>`
element's `src`, else the first playlist-URL-shaped substring of the
rendered HTML (`htmlMatch`), else `''`. -/
def evalDOMCandidate (htmlMatch : String → Option String) (d : DOMState) : String :=
  let fromHTML := (htmlMatch d.html).getD ""
  match d.video with
  | some v =>
    if v.currentSrc ≠ "" then v.currentSrc
    else if v.src ≠ "" then v.src
    else
      match v.sourceSrc with
      | some s => if s ≠ "" then s else fromHTML
      | none => fromHTML
  | none => fromHTML

/-- The fallback phase after the capture/timer race: when the slot is still
empty, evaluate the DOM once and accept the candidate only if it is truthy
and contains `.m3u8`.  The second component counts the `page.evaluate`
calls performed. -/
def domFallback (htmlMatch : String → Option String)
    (captured : Option Capture) (d : DOMState) : Option Capture × Nat :=
  match captured with
  | some c => (some c, 0)
  | none =>
    let cand := evalDOMCandidate htmlMatch d
    if cand ≠ "" && strContains cand ".m3u8" then (some ⟨cand, [], false⟩, 1)
    else (none, 1)

/-! ### Header enrichment (the `if (captured)` block of the runner)

JS objects are modelled with exact-key get/set (`jsGet`/`jsSet`); the
Puppeteer request-header maps the runner manipulates use fixed lowercase
keys.  JS `a || b` on strings is `jsOr`. -/

/-- JS property read `h[k]`, with a missing key reading as `''`
(`undefined` is falsy exactly like `''` in every use below). -/
def jsGet (h : HeaderMap) (k : String) : String :=
  match h.find? (fun p => p.1 == k) with
  | some p => p.2
  | none => ""

/-- JS property assignment `h[k] = v` on an object (whose keys are unique):
overwrite the binding in place, or append a new one. -/
def jsSet (h : HeaderMap) (k v : String) : HeaderMap :=
  match h with
  | [] => [(k, v)]
  | p :: t => if p.1 == k then (k, v) :: t else p :: jsSet t k v

/-- JS `a || b` on strings: `b` exactly when `a` is the falsy `''`. -/
def jsOr (a b : String) : String :=
  if a = "" then b else a

/-- The fixed Chrome user agent the runner launches with and forces into
the enriched header set. -/
def chromeUserAgent : String :=
  "Mozilla/5.0 (X11; Linux x86_64) AppleWebKit/537.36 (KHTML, like Gecko) Chrome/124.0.0.0 Safari/537.36"

/-- The joined cookie header `cookies.map(c => c.name + '=' + c.value).join('; ')`. -/
def cookieHeaderOf (cookies : List (String × String)) : String :=
  String.intercalate "; " (cookies.map (fun c => c.1 ++ "=" ++ c.2))

/-- The `origin` of a parsed URL as `new URL(embedURL).origin` yields it. -/
def originOf (u : URLParts) : String :=
  u.scheme ++ "://" ++ u.host

/-- The enrichment block the runner applies to any found candidate's
headers: join session cookies into a single `cookie` header unless one is
already (truthily) present and at least one cookie was collected; force the
fixed user agent; default `referer` to the embed URL and `origin` to the
embed URL's own origin when absent (`parse` failing models the swallowed
`new URL(embedURL)` throw, which skips the origin default). -/
def enrichHeaders (parse : String → Option URLParts) (embedURL : String)
    (cookies : List (String × String)) (h : HeaderMap) : HeaderMap :=
  let h1 := if cookies.length > 0 then
      jsSet h "cookie" (jsOr (jsGet h "cookie") (cookieHeaderOf cookies))
    else h
  let h2 := jsSet h1 "user-agent" chromeUserAgent
  let h3 := jsSet h2 "referer" (jsOr (jsGet h2 "referer") embedURL)
  match parse embedURL with
  | some u => jsSet h3 "origin" (jsOr (jsGet h3 "origin") (originOf u))
  | none => h3

/-! ## Diagnostic sinks

`extractM3U8Lite` and `LaunchMPVWithHeaders` take a `log func(string)`
callback.  A sink is modelled as a state type `σ` with an update
`emit : String → σ → σ`; the Go functions are re-expressed threading the
sink state through every `log(...)` call, in program order, so that the
non-log result can be compared across different sinks.  A `nil` sink is
the instance where `emit` ignores its input. -/

/-- The decoded JSON the runner prints on stdout (`puppeteerResult`). -/
structure PuppeteerResult where
  url : String
  headers : HeaderMap
  browser : String

/-- The outcomes of the external steps `extractM3U8Lite` performs:
locating `node_modules`, checking the Puppeteer packages, materializing
the runner script, running it (with its stdout/stderr text), and JSON
decoding of stdout. -/
structure ExtractorWorld where
  nodeBase : Except String String
  puppeteerCheck : Except String Unit
  writeRunner : Except String String
  runOutcome : Except String Unit
  runnerOut : String
  runnerErr : String
  decode : String → Except String PuppeteerResult

/-- The `logBuffer.Write` streaming: each chunk is split into lines, each
line trimmed, empty lines dropped, and the rest emitted with the buffer's
prefix. -/
def emitBufferLines {σ : Type} (emit : String → σ → σ) (tag content : String)
    (s : σ) : σ :=
  (splitLines content).foldl
    (fun acc l =>
      let t := trimChars l
      if t.isEmpty then acc else emit (tag ++ String.mk t) acc)
    s

/-- Function `extractM3U8Lite` (internal/extractor.go) with its diagnostic sink made
explicit: the result is the playlist URL and captured header map, or the
first error; the sink state collects every emitted log line. -/
def extractM3U8LiteTrace {σ : Type} (emit : String → σ → σ) (s : σ)
    (embedURL : String) (w : ExtractorWorld) :
    Except String (String × HeaderMap) × σ :=
  if String.mk (trimChars embedURL.data) = "" then (.error "empty embed URL", s)
  else
    match w.nodeBase with
    | .error e => (.error e, s)
    | .ok _ =>
      match w.puppeteerCheck with
      | .error e => (.error e, s)
      | .ok _ =>
        match w.writeRunner with
        | .error e => (.error e, s)
        | .ok _ =>
          let s := emit ("[puppeteer] launching chromium stealth runner for " ++ embedURL) s
          let s := emitBufferLines emit "[puppeteer stdout] " w.runnerOut s
          let s := emitBufferLines emit "[puppeteer stderr] " w.runnerErr s
          match w.runOutcome with
          | .error e =>
            let s := emit ("[puppeteer] runner error: " ++ String.mk (trimChars w.runnerErr.data)) s
            (.error ("puppeteer runner failed: " ++ e), s)
          | .ok _ =>
            match w.decode w.runnerOut with
            | .error e => (.error e, emit ("[puppeteer] decode error: " ++ e) s)
            | .ok res =>
              if res.url = "" then
                let s := if w.runnerErr.length > 0 then
                    emit (String.mk (trimChars w.runnerErr.data)) s
                  else s
                (.error "m3u8 not found", s)
              else
                (.ok (res.url, res.headers),
                 emit ("[puppeteer] found .m3u8 via " ++ res.browser ++ ": " ++ res.url) s)

/-- Function `LaunchMPVWithHeaders` (internal/extractor.go) with its diagnostic sink
made explicit.  `startErr` is the outcome of `cmd.Start()`, `waitErr` of
`cmd.Wait()` in attached mode, `pid` the spawned process id. -/
def launchMPVTrace {σ : Type} (emit : String → σ → σ) (s : σ)
    (m3u8 : String) (hdrs : HeaderMap) (attachOutput : Bool)
    (startErr waitErr : Option String) (pid : Nat) : Except String Unit × σ :=
  if m3u8 = "" then (.error "empty m3u8 URL", s)
  else
    let s := emit ("[mpv] launching with " ++ toString (mpvHeaderFlags hdrs).length
      ++ " headers: " ++ m3u8) s
    match startErr with
    | some e => (.error e, emit ("[mpv] launch error: " ++ e) s)
    | none =>
      if attachOutput then
        let s := emit "[mpv] started (attached)" s
        match waitErr with
        | some e => (.error e, emit ("[mpv] exited with error: " ++ e) s)
        | none => (.ok (), emit "[mpv] exited" s)
      else
        (.ok (), emit ("[mpv] started (pid " ++ toString pid ++ ")") s)

/-! ## Helper lemmas -/

/-- The argument list of `LaunchMPVWithHeaders` in closed form: quiet flags
(detached mode only), the header flags in fixed order, the URL last. -/
theorem buildMPVArgs_eq (m3u8 : String) (hdrs : HeaderMap) (attachOutput : Bool) :
    buildMPVArgs m3u8 hdrs attachOutput =
      (if attachOutput then [] else ["--no-terminal", "--really-quiet"])
        ++ mpvHeaderFlags hdrs ++ [m3u8] := by
  unfold buildMPVArgs mpvHeaderFlags mpvHeaderKeys
  cases attachOutput <;>
    simp only [List.foldl, List.filterMap, Bool.not_true, Bool.not_false, if_true, if_false] <;>
    split_ifs <;> simp_all

/-! ## Claim C4 -/

/-- C4: for every playlist URL, header map and attach flag, the mpv argument
list is exactly the quiet/no-terminal flags (present iff detached), then one
`--http-header-fields=Name: value` flag per present header in the fixed order
User-Agent, Origin, Referer, then the playlist URL as the final argument. -/
theorem C4_mpv_argument_list (m3u8 : String) (hdrs : HeaderMap)
    (attachOutput : Bool) (hne : m3u8 ≠ "") :
    launchMPVArgs m3u8 hdrs attachOutput =
      .ok ((if attachOutput then [] else ["--no-terminal", "--really-quiet"])
        ++ mpvHeaderFlags hdrs ++ [m3u8]) := by
  unfold launchMPVArgs
  rw [if_neg hne, buildMPVArgs_eq]

/-- Witness for C4 at a concrete detached launch with two present headers. -/
theorem C4_mpv_argument_list_witness :
    launchMPVArgs "https://cdn.example/live/playlist.m3u8"
        [("origin", "https://embedsports.top"), ("user-agent", "UA1")] false =
      .ok ["--no-terminal", "--really-quiet",
           "--http-header-fields=User-Agent: UA1",
           "--http-header-fields=Origin: https://embedsports.top",
           "https://cdn.example/live/playlist.m3u8"] := by
  rw [C4_mpv_argument_list _ _ _ (by decide)]
  rfl

/-! ## Claim C2 -/

/-- C2: if two qualifying playlist responses are observed during the capture
window before the waiter consumes the signal — one whose body contains the
leaf-segment marker `#EXTINF` and one generic — then the selected capture is
the segment-marked one (its own URL, its request headers), in either arrival
order. -/
theorem C2_segment_capture_wins (resolve : String → String → Option String)
    (seg gen : NetResponse)
    (hsu : strContains seg.url ".m3u8" = true)
    (hgu : strContains gen.url ".m3u8" = true)
    (hsb : strContains seg.body "#EXTINF" = true)
    (hgb : strContains gen.body "#EXTINF" = false) :
    runCaptures resolve [gen, seg] = some ⟨seg.url, seg.headers, true⟩ ∧
    runCaptures resolve [seg, gen] = some ⟨seg.url, seg.headers, true⟩ := by
  constructor <;>
    simp [runCaptures, captureStep, classifyResponse, hsu, hgu, hsb, hgb]

/-- Witness for C2 at concrete responses: a leaf playlist body and a generic
master playlist body, in both arrival orders. -/
theorem C2_segment_capture_wins_witness :
    runCaptures (fun line _ => some line)
        [⟨"https://h.example/master.m3u8", [], "#EXTM3U\nlow/index.m3u8"⟩,
         ⟨"https://h.example/leaf.m3u8", [("referer", "https://e/")],
          "#EXTM3U\n#EXTINF:4.0,\nseg1.ts"⟩]
      = some ⟨"https://h.example/leaf.m3u8", [("referer", "https://e/")], true⟩ ∧
    runCaptures (fun line _ => some line)
        [⟨"https://h.example/leaf.m3u8", [("referer", "https://e/")],
          "#EXTM3U\n#EXTINF:4.0,\nseg1.ts"⟩,
         ⟨"https://h.example/master.m3u8", [], "#EXTM3U\nlow/index.m3u8"⟩]
      = some ⟨"https://h.example/leaf.m3u8", [("referer", "https://e/")], true⟩ :=
  C2_segment_capture_wins (fun line _ => some line)
    ⟨"https://h.example/leaf.m3u8", [("referer", "https://e/")],
      "#EXTM3U\n#EXTINF:4.0,\nseg1.ts"⟩
    ⟨"https://h.example/master.m3u8", [], "#EXTM3U\nlow/index.m3u8"⟩
    (by decide) (by decide) (by decide) (by decide)

/-! ## Claim C10 -/

/-- C10 counterexample: the same Go map — the two association lists below are
permutations of each other, i.e. the same key→value mapping presented in two
iteration orders — yields different forwarded values for `origin`, so the
selected value is not uniquely determined by the map (Go map iteration order
is unspecified and randomized per run). -/
theorem C10_counterexample :
    ([("Origin", "https://a.example"), ("origin", "https://b.example")] : HeaderMap).Perm
        [("origin", "https://b.example"), ("Origin", "https://a.example")] ∧
    lookupHeaderValue [("Origin", "https://a.example"), ("origin", "https://b.example")] "origin"
        = "https://a.example" ∧
    lookupHeaderValue [("origin", "https://b.example"), ("Origin", "https://a.example")] "origin"
        = "https://b.example" ∧
    ("https://a.example" : String) ≠ "https://b.example" ∧
    buildMPVArgs "https://h.example/p.m3u8"
        [("Origin", "https://a.example"), ("origin", "https://b.example")] true
      ≠ buildMPVArgs "https://h.example/p.m3u8"
        [("origin", "https://b.example"), ("Origin", "https://a.example")] true :=
  ⟨List.Perm.swap _ _ _, by decide, by decide, by decide, by decide⟩

/-- A successful header lookup comes from a matching entry of the map. -/
theorem lookupHeaderValue_mem {hdrs : HeaderMap} {name : String}
    (h : lookupHeaderValue hdrs name ≠ "") :
    ∃ p ∈ hdrs, eqFold p.1 name = true ∧ p.2 = lookupHeaderValue hdrs name := by
  unfold lookupHeaderValue at *
  cases hfind : hdrs.find? (fun p => eqFold p.1 name) with
  | none => rw [hfind] at h; exact absurd rfl h
  | some p =>
    have h1 := List.mem_of_find?_eq_some hfind
    have h2 : eqFold p.1 name = true := by simpa using List.find?_some hfind
    exact ⟨p, h1, h2, rfl⟩

/-- When some entry of the map matches the name, the lookup's `find?`
succeeds. -/
theorem find?_eqFold_of_mem {hdrs : HeaderMap} {name : String} {p : String × String}
    (hp : p ∈ hdrs) (hf : eqFold p.1 name = true) :
    ∃ q, hdrs.find? (fun r => eqFold r.1 name) = some q := by
  have : (hdrs.find? (fun r => eqFold r.1 name)).isSome :=
    List.find?_isSome.mpr ⟨p, hp, by simpa using hf⟩
  exact Option.isSome_iff_exists.mp this

/-- C10 amended: the forwarded value is the first case-insensitively matching
entry in iteration order; it is uniquely determined by the map (invariant
under permutation of the iteration order) whenever all case-folded-equal
matching keys carry the same value — in particular whenever the map has at
most one key matching the name under case folding. -/
theorem C10_lookup_order_invariance (l₁ l₂ : HeaderMap) (name : String)
    (hperm : l₁.Perm l₂)
    (huniq : ∀ p ∈ l₁, ∀ q ∈ l₁,
      eqFold p.1 name = true → eqFold q.1 name = true → p.2 = q.2) :
    lookupHeaderValue l₁ name = lookupHeaderValue l₂ name := by
  unfold lookupHeaderValue
  cases h₁ : l₁.find? (fun p => eqFold p.1 name) with
  | none =>
    cases h₂ : l₂.find? (fun p => eqFold p.1 name) with
    | none => rfl
    | some q =>
      have hqmem : q ∈ l₁ := hperm.mem_iff.mpr (List.mem_of_find?_eq_some h₂)
      have hqfold : eqFold q.1 name = true := by simpa using List.find?_some h₂
      have hnone : ¬ eqFold q.1 name = true := by
        simpa using List.find?_eq_none.mp h₁ q hqmem
      exact absurd hqfold hnone
  | some p =>
    cases h₂ : l₂.find? (fun p => eqFold p.1 name) with
    | none =>
      have hpmem : p ∈ l₂ := hperm.mem_iff.mp (List.mem_of_find?_eq_some h₁)
      have hpfold : eqFold p.1 name = true := by simpa using List.find?_some h₁
      have hnone : ¬ eqFold p.1 name = true := by
        simpa using List.find?_eq_none.mp h₂ p hpmem
      exact absurd hpfold hnone
    | some q =>
      exact huniq p (List.mem_of_find?_eq_some h₁)
        q (hperm.mem_iff.mpr (List.mem_of_find?_eq_some h₂))
        (by simpa using List.find?_some h₁) (by simpa using List.find?_some h₂)

/-- Witness for C10 at a concrete map whose two `origin`-casing keys carry
the same value, in two iteration orders. -/
theorem C10_lookup_order_invariance_witness :
    lookupHeaderValue [("Origin", "https://e.example"), ("origin", "https://e.example")] "origin"
      = lookupHeaderValue [("origin", "https://e.example"), ("Origin", "https://e.example")] "origin" :=
  C10_lookup_order_invariance _ _ "origin" (List.Perm.swap _ _ _) (by decide)

/-! ## Claim C1 -/

/-- C1 counterexample: a raw header map holding both an empty-valued
`Origin` and a non-empty `origin` (distinct Go map keys, equal under case
folding).  The map contains a case-insensitively matching key with non-empty
value, yet — with this iteration order — no Origin header is forwarded,
because the lookup returns the first (empty) match.  This refutes the
claimed "forwarded exactly when some matching key has a non-empty value". -/
theorem C1_counterexample :
    (([("Origin", ""), ("origin", "https://site.example")] : HeaderMap).any
        (fun p => eqFold p.1 "origin" && p.2 != "") = true) ∧
    mpvHeaderFlags [("Origin", ""), ("origin", "https://site.example")] = [] ∧
    buildMPVArgs "https://h.example/p.m3u8"
        [("Origin", ""), ("origin", "https://site.example")] true
      = ["https://h.example/p.m3u8"] := by
  refine ⟨by decide, by decide, ?_⟩
  rw [buildMPVArgs_eq]
  decide

/-- C1 amended: every forwarded flag is one of User-Agent/Origin/Referer and
carries the non-empty value of some case-insensitively matching entry of the
raw map (so an empty value is never forwarded and no key outside the three is
ever emitted); and when the raw map's keys are unique under case folding,
each of the three is forwarded exactly when the map contains a matching entry
with non-empty value. -/
theorem C1_minimal_header_forwarding (hdrs : HeaderMap) :
    (∀ flag ∈ mpvHeaderFlags hdrs, ∃ hk ∈ mpvHeaderKeys, ∃ p ∈ hdrs,
       eqFold p.1 hk.1 = true ∧ p.2 ≠ "" ∧ flag = mpvHeaderFlag hk.2 p.2) ∧
    ((hdrs.map (fun p => lowerChars p.1.data)).Nodup →
      ∀ name, lookupHeaderValue hdrs name ≠ "" ↔
        ∃ p ∈ hdrs, eqFold p.1 name = true ∧ p.2 ≠ "") := by
  constructor
  · intro flag hflag
    rw [mpvHeaderFlags, List.mem_filterMap] at hflag
    obtain ⟨hk, hkmem, hkeq⟩ := hflag
    by_cases hv : lookupHeaderValue hdrs hk.1 = ""
    · simp [hv] at hkeq
    · obtain ⟨p, hpmem, hpfold, hpval⟩ := lookupHeaderValue_mem hv
      refine ⟨hk, hkmem, p, hpmem, hpfold, ?_, ?_⟩
      · rw [hpval]; exact hv
      · simp only [ne_eq, hv, not_false_eq_true, if_true] at hkeq
        rw [hpval]
        exact (Option.some.inj hkeq).symm
  · intro hnod name
    constructor
    · intro hv
      obtain ⟨p, hpmem, hpfold, hpval⟩ := lookupHeaderValue_mem hv
      exact ⟨p, hpmem, hpfold, by rw [hpval]; exact hv⟩
    · rintro ⟨p, hpmem, hpfold, hpne⟩
      obtain ⟨q, hfind⟩ := find?_eqFold_of_mem hpmem hpfold
      have hqmem : q ∈ hdrs := List.mem_of_find?_eq_some hfind
      have hqfold : eqFold q.1 name = true := by simpa using List.find?_some hfind
      have hkeys : lowerChars q.1.data = lowerChars p.1.data := by
        have h₁ : lowerChars q.1.data = lowerChars name.data := by
          have := hqfold; rwa [eqFold, beq_iff_eq] at this
        have h₂ : lowerChars p.1.data = lowerChars name.data := by
          have := hpfold; rwa [eqFold, beq_iff_eq] at this
        rw [h₁, h₂]
      have hqp : q = p := List.inj_on_of_nodup_map hnod hqmem hpmem hkeys
      rw [lookupHeaderValue, hfind, hqp]
      exact hpne

/-- Witness for C1 at a concrete case-folding-unique map: the Origin lookup
is non-empty and the matching entry exists. -/
theorem C1_minimal_header_forwarding_witness :
    lookupHeaderValue [("ORIGIN", "https://x.example")] "origin" ≠ "" ↔
      ∃ p ∈ ([("ORIGIN", "https://x.example")] : HeaderMap),
        eqFold p.1 "origin" = true ∧ p.2 ≠ "" :=
  (C1_minimal_header_forwarding [("ORIGIN", "https://x.example")]).2 (by decide) "origin"

/-! ## Claim C5 -/

/-- C5 counterexample: `fetchHTML` returns the page body to the caller even
for a 404 response — the source never inspects the status code — refuting
"for every response with a non-2xx status code, no page HTML is returned".
(The 10-second figure is also not in the code: the timeout is a caller
parameter, and the DOM-fallback call site passes 12 seconds.) -/
theorem C5_counterexample :
    fetchHTML "https://embedsports.top/e/1" "UA1" "https://embedsports.top"
        "https://embedsports.top/" (fun _ _ => .ok ⟨404, .ok "<html>embed</html>"⟩)
      = .ok "<html>embed</html>" ∧
    ¬(200 ≤ 404 ∧ 404 < 300) :=
  ⟨rfl, by decide⟩

/-- C5 amended: fetching the embed page HTML fails exactly on transport
errors (which include the client timeout) and body-read errors; the status
code is never consulted — the body of every response that can be read is
returned to the caller, non-2xx included. -/
theorem C5_fetch_ignores_status (embed ua origin referer e b : String)
    (resp : HTTPResponse) :
    (fetchHTML embed ua origin referer (fun _ _ => .error e) = .error e) ∧
    (∀ s' : Nat, fetchHTML embed ua origin referer (fun _ _ => .ok resp)
      = fetchHTML embed ua origin referer (fun _ _ => .ok ⟨s', resp.body⟩)) ∧
    (resp.body = .ok b →
      fetchHTML embed ua origin referer (fun _ _ => .ok resp) = .ok b) := by
  refine ⟨rfl, fun s' => rfl, fun hb => ?_⟩
  obtain ⟨sc, body⟩ := resp
  simp only at hb
  subst hb
  rfl

/-- Witness for C5 at a concrete 500 response whose body is returned. -/
theorem C5_fetch_ignores_status_witness :
    fetchHTML "https://h.example/e" "UA1" "https://h.example" "https://h.example/"
        (fun _ _ => .ok ⟨500, .ok "<html>oops</html>"⟩) = .ok "<html>oops</html>" :=
  (C5_fetch_ignores_status "https://h.example/e" "UA1" "https://h.example"
      "https://h.example/" "err" "<html>oops</html>" ⟨500, .ok "<html>oops</html>"⟩).2.2 rfl

/-! ## Claim C6 -/

/-- C6 counterexample: for the parsable non-provider URL
`http://example.org/page`, `deriveHeaders` returns the origin
`https://example.org` — the scheme is hardcoded to `https`, not taken from
the URL — refuting "returns an origin and referer derived from that URL's
scheme+host". -/
theorem C6_counterexample :
    goParseURL "http://example.org/page" = some ⟨"http", "example.org"⟩ ∧
    deriveHeaders goParseURL "http://example.org/page"
      = .ok ("https://example.org", "https://example.org/", firefoxUserAgent) ∧
    ("https://example.org" : String) ≠ "http" ++ "://" ++ "example.org" :=
  ⟨by decide, rfl, by decide⟩

/-- C6 amended: for every non-empty embed URL, derivation fails exactly when
the URL cannot be parsed; a parsable URL whose host contains the provider
marker gets the canonical `https://embedsports.top` origin/referer pair, and
every other parsable URL gets `https://<host>` and `https://<host>/` — the
parsed host with a hardcoded `https` scheme, regardless of the URL's own
scheme. -/
theorem C6_derive_headers (parse : String → Option URLParts) (embed : String)
    (hne : embed ≠ "") :
    (parse embed = none → deriveHeaders parse embed = .error "parse url") ∧
    (∀ u, parse embed = some u →
      deriveHeaders parse embed =
        if strContains u.host "embedsports" = true then
          .ok ("https://embedsports.top", "https://embedsports.top/", firefoxUserAgent)
        else
          .ok ("https://" ++ u.host, "https://" ++ u.host ++ "/", firefoxUserAgent)) := by
  constructor
  · intro hn
    unfold deriveHeaders
    rw [if_neg hne, hn]
  · intro u hu
    unfold deriveHeaders
    rw [if_neg hne, hu]

/-- Witness for C6 at the provider URL `https://embedsports.top/e/1`. -/
theorem C6_derive_headers_witness :
    deriveHeaders goParseURL "https://embedsports.top/e/1"
      = .ok ("https://embedsports.top", "https://embedsports.top/", firefoxUserAgent) := by
  have h := (C6_derive_headers goParseURL "https://embedsports.top/e/1" (by decide)).2
    ⟨"https", "embedsports.top"⟩ (by decide)
  rw [h]
  rfl

/-! ## Claim C7 -/

/-- The claim's reading of a nested playlist reference: a (trimmed) line
that is non-blank, does not start with `#`, and contains the playlist
marker case-insensitively. -/
def nestedLineQualifies (l : List Char) : Bool :=
  !(l.isEmpty || l.head? == some '#') && charsInfixOf ".m3u8".data (lowerChars l)

/-- The first nested playlist reference of a body, per the claim's words:
the first qualifying trimmed line. -/
def firstNestedLine (body : String) : Option String :=
  (((splitLines body).map trimChars).find? nestedLineQualifies).map String.mk

/-- The line walk of `findNestedPlaylist` returns exactly the first
qualifying trimmed line, resolved against the base URL. -/
theorem findNestedPlaylistGo_eq (resolve : String → String → Option String)
    (base : String) (lines : List (List Char)) :
    findNestedPlaylistGo resolve base lines =
      match (lines.map trimChars).find? nestedLineQualifies with
      | none => ""
      | some l =>
        match resolve (String.mk l) base with
        | some u => u
        | none => String.mk l := by
  induction lines with
  | nil => rfl
  | cons raw rest ih =>
    simp only [findNestedPlaylistGo, List.map_cons]
    by_cases h1 : ((trimChars raw).isEmpty || (trimChars raw).head? == some '#') = true
    · rw [if_pos h1,
        List.find?_cons_of_neg _ (by simp [nestedLineQualifies, h1]), ih]
    · rw [Bool.not_eq_true] at h1
      by_cases h2 : charsInfixOf ".m3u8".data (lowerChars (trimChars raw)) = true
      · rw [if_neg (by rw [h1]; exact Bool.false_ne_true), if_pos h2,
          List.find?_cons_of_pos _ (by simp [nestedLineQualifies, h1, h2])]
      · rw [Bool.not_eq_true] at h2
        rw [if_neg (by rw [h1]; exact Bool.false_ne_true),
          if_neg (by rw [h2]; exact Bool.false_ne_true),
          List.find?_cons_of_neg _ (by simp [nestedLineQualifies, h1, h2]), ih]

/-- C7: for every qualifying captured response whose body lacks `#EXTINF`
but contains a nested playlist reference, the final candidate URL — both in
the classification and in the capture the response publishes — is the first
such line resolved relative to the response's own URL. -/
theorem C7_nested_reference_resolved (resolve : String → String → Option String)
    (r : NetResponse) (line resolved : String)
    (hurl : strContains r.url ".m3u8" = true)
    (hx : strContains r.body "#EXTINF" = false)
    (hn : firstNestedLine r.body = some line)
    (hr : resolve line r.url = some resolved)
    (hres : resolved ≠ "") :
    classifyResponse resolve r = (resolved, false) ∧
    captureStep resolve none r = some ⟨resolved, r.headers, false⟩ := by
  have hbody : r.body ≠ "" := by
    intro hb
    rw [hb] at hn
    rw [show firstNestedLine "" = none from rfl] at hn
    exact Option.noConfusion hn
  obtain ⟨l, hfind, hl⟩ := Option.map_eq_some'.mp hn
  have hnested : findNestedPlaylist resolve r.body r.url = resolved := by
    unfold findNestedPlaylist
    rw [if_neg hbody, findNestedPlaylistGo_eq, hfind]
    dsimp only
    rw [hl, hr]
  have hclass : classifyResponse resolve r = (resolved, false) := by
    unfold classifyResponse
    dsimp only
    rw [hx, hnested]
    simp [hres]
  refine ⟨hclass, ?_⟩
  unfold captureStep
  rw [hurl]
  dsimp only
  rw [hclass]
  simp

/-- Witness for C7 at a concrete master playlist whose body points at a
nested playlist. -/
theorem C7_nested_reference_resolved_witness :
    classifyResponse (fun l _ => some ("https://h.example/" ++ l))
        ⟨"https://h.example/master.m3u8", [("origin", "https://e.example")],
         "#EXTM3U\nchunk/low.m3u8"⟩
      = ("https://h.example/chunk/low.m3u8", false) ∧
    captureStep (fun l _ => some ("https://h.example/" ++ l)) none
        ⟨"https://h.example/master.m3u8", [("origin", "https://e.example")],
         "#EXTM3U\nchunk/low.m3u8"⟩
      = some ⟨"https://h.example/chunk/low.m3u8", [("origin", "https://e.example")], false⟩ :=
  C7_nested_reference_resolved (fun l _ => some ("https://h.example/" ++ l))
    ⟨"https://h.example/master.m3u8", [("origin", "https://e.example")],
     "#EXTM3U\nchunk/low.m3u8"⟩
    "chunk/low.m3u8" "https://h.example/chunk/low.m3u8"
    (by decide) (by decide) (by decide) (by decide) (by decide)

/-! ## Claim C8 -/

/-- The DOM sources in the order the claim lists them: the video element's
current source, its explicit source attribute, a nested `<source>` element's
source, then the HTML scan result. -/
def domCheckList (htmlMatch : String → Option String) (d : DOMState) : List String :=
  (match d.video with
   | some v =>
     [v.currentSrc, v.src] ++ (match v.sourceSrc with | some s => [s] | none => [])
   | none => []) ++ [(htmlMatch d.html).getD ""]

/-- First non-empty string of a list, or `""`. -/
def firstNonEmptyStr (l : List String) : String :=
  (l.find? (fun x => x != "")).getD ""

/-- C8: when no network capture fired before the secondary timer expired
(the capture slot is still empty), exactly one DOM evaluation is performed —
and none at all when a capture exists, so it is never a poll; the evaluation
checks the claim's four sources in order, taking the first non-empty one;
and the result is accepted as a capture exactly when it contains the
playlist marker. -/
theorem C8_single_dom_fallback (htmlMatch : String → Option String) (d : DOMState) :
    evalDOMCandidate htmlMatch d = firstNonEmptyStr (domCheckList htmlMatch d) ∧
    (domFallback htmlMatch none d).2 = 1 ∧
    (∀ c, (domFallback htmlMatch (some c) d).2 = 0) ∧
    (domFallback htmlMatch none d).1 =
      (if strContains (evalDOMCandidate htmlMatch d) ".m3u8" = true then
        some ⟨evalDOMCandidate htmlMatch d, [], false⟩
      else none) := by
  refine ⟨?_, ?_, fun c => rfl, ?_⟩
  · cases hv : d.video with
    | none =>
      by_cases hm : (htmlMatch d.html).getD "" = "" <;>
        simp [evalDOMCandidate, domCheckList, firstNonEmptyStr, hv, hm]
    | some v =>
      by_cases h1 : v.currentSrc = ""
      · by_cases h2 : v.src = ""
        · cases hs : v.sourceSrc with
          | none =>
            by_cases hm : (htmlMatch d.html).getD "" = "" <;>
              simp [evalDOMCandidate, domCheckList, firstNonEmptyStr, hv, hs, h1, h2, hm]
          | some s =>
            by_cases h3 : s = ""
            · by_cases hm : (htmlMatch d.html).getD "" = "" <;>
                simp [evalDOMCandidate, domCheckList, firstNonEmptyStr, hv, hs, h1, h2, h3, hm]
            · simp [evalDOMCandidate, domCheckList, firstNonEmptyStr, hv, hs, h1, h2, h3]
        · simp [evalDOMCandidate, domCheckList, firstNonEmptyStr, hv, h1, h2]
      · simp [evalDOMCandidate, domCheckList, firstNonEmptyStr, hv, h1]
  · unfold domFallback
    dsimp only
    split <;> rfl
  · unfold domFallback
    dsimp only
    by_cases hc : evalDOMCandidate htmlMatch d = ""
    · rw [hc]
      simp [show strContains "" ".m3u8" = false from rfl]
    · simp only [hc, ne_eq, not_false_eq_true, bne_iff_ne, if_true, Bool.true_and]
      split <;> simp_all

/-! ## Claim C3 -/

/-- Reading a JS object extended at the front. -/
theorem jsGet_cons (p : String × String) (t : HeaderMap) (k : String) :
    jsGet (p :: t) k = if p.1 == k then p.2 else jsGet t k := by
  rw [jsGet, jsGet]
  cases h : p.1 == k <;> simp [List.find?, h]

/-- Reading back the key just assigned yields the assigned value. -/
theorem jsGet_jsSet_self (h : HeaderMap) (k v : String) :
    jsGet (jsSet h k v) k = v := by
  induction h with
  | nil => simp [jsSet, jsGet_cons, jsGet, List.find?]
  | cons p t ih =>
    by_cases hpk : (p.1 == k) = true
    · simp [jsSet, hpk, jsGet_cons]
    · simp [jsSet, hpk, jsGet_cons, ih]

/-- Assigning one key leaves every other key's value unchanged. -/
theorem jsGet_jsSet_other (h : HeaderMap) (k v k' : String) (hne : k' ≠ k) :
    jsGet (jsSet h k v) k' = jsGet h k' := by
  have hkk' : (k == k') = false := by
    simp only [beq_eq_false_iff_ne, ne_eq]
    exact fun hk => hne hk.symm
  induction h with
  | nil => simp [jsSet, jsGet_cons, hkk', jsGet, List.find?]
  | cons p t ih =>
    by_cases hpk : (p.1 == k) = true
    · have hp1 : p.1 = k := by simpa using hpk
      simp [jsSet, hpk, jsGet_cons, hkk', hp1]
    · simp [jsSet, hpk, jsGet_cons, ih]

/-- C3: whenever a candidate was found (by network capture or DOM fallback),
the enriched header set has: a single joined cookie header added only when
cookies were collected and none was (truthily) present before; the
user-agent forced to the fixed desktop UA, overwriting any captured value;
the referer defaulting to the embed URL only when absent; the origin
defaulting to the embed URL's own origin only when absent; and
already-present (non-empty) cookie, referer and origin values unchanged. -/
theorem C3_candidate_header_enrichment (parse : String → Option URLParts)
    (embedURL : String) (cookies : List (String × String)) (h : HeaderMap)
    (u : URLParts) (hp : parse embedURL = some u) :
    jsGet (enrichHeaders parse embedURL cookies h) "user-agent" = chromeUserAgent ∧
    jsGet (enrichHeaders parse embedURL cookies h) "referer"
      = jsOr (jsGet h "referer") embedURL ∧
    jsGet (enrichHeaders parse embedURL cookies h) "origin"
      = jsOr (jsGet h "origin") (originOf u) ∧
    jsGet (enrichHeaders parse embedURL cookies h) "cookie"
      = (if cookies.length > 0 then jsOr (jsGet h "cookie") (cookieHeaderOf cookies)
         else jsGet h "cookie") := by
  unfold enrichHeaders
  rw [hp]
  dsimp only
  by_cases hck : cookies.length > 0
  · rw [if_pos hck, if_pos hck]
    refine ⟨?_, ?_, ?_, ?_⟩
    · rw [jsGet_jsSet_other _ "origin" _ "user-agent" (by decide),
        jsGet_jsSet_other _ "referer" _ "user-agent" (by decide),
        jsGet_jsSet_self]
    · rw [jsGet_jsSet_other _ "origin" _ "referer" (by decide),
        jsGet_jsSet_self,
        jsGet_jsSet_other _ "user-agent" _ "referer" (by decide),
        jsGet_jsSet_other _ "cookie" _ "referer" (by decide)]
    · rw [jsGet_jsSet_self,
        jsGet_jsSet_other _ "referer" _ "origin" (by decide),
        jsGet_jsSet_other _ "user-agent" _ "origin" (by decide),
        jsGet_jsSet_other _ "cookie" _ "origin" (by decide)]
    · rw [jsGet_jsSet_other _ "origin" _ "cookie" (by decide),
        jsGet_jsSet_other _ "referer" _ "cookie" (by decide),
        jsGet_jsSet_other _ "user-agent" _ "cookie" (by decide),
        jsGet_jsSet_self]
  · rw [if_neg hck, if_neg hck]
    refine ⟨?_, ?_, ?_, ?_⟩
    · rw [jsGet_jsSet_other _ "origin" _ "user-agent" (by decide),
        jsGet_jsSet_other _ "referer" _ "user-agent" (by decide),
        jsGet_jsSet_self]
    · rw [jsGet_jsSet_other _ "origin" _ "referer" (by decide),
        jsGet_jsSet_self,
        jsGet_jsSet_other _ "user-agent" _ "referer" (by decide)]
    · rw [jsGet_jsSet_self,
        jsGet_jsSet_other _ "referer" _ "origin" (by decide),
        jsGet_jsSet_other _ "user-agent" _ "origin" (by decide)]
    · rw [jsGet_jsSet_other _ "origin" _ "cookie" (by decide),
        jsGet_jsSet_other _ "referer" _ "cookie" (by decide),
        jsGet_jsSet_other _ "user-agent" _ "cookie" (by decide)]

/-- Witness for C3 at a concrete capture: one session cookie, a header map
already carrying a referer, and the provider embed URL. -/
theorem C3_candidate_header_enrichment_witness :
    jsGet (enrichHeaders goParseURL "https://embedsports.top/embed/one"
        [("sid", "abc")] [("referer", "https://already.example/")]) "user-agent"
      = chromeUserAgent ∧
    jsGet (enrichHeaders goParseURL "https://embedsports.top/embed/one"
        [("sid", "abc")] [("referer", "https://already.example/")]) "referer"
      = jsOr (jsGet [("referer", "https://already.example/")] "referer")
          "https://embedsports.top/embed/one" ∧
    jsGet (enrichHeaders goParseURL "https://embedsports.top/embed/one"
        [("sid", "abc")] [("referer", "https://already.example/")]) "origin"
      = jsOr (jsGet [("referer", "https://already.example/")] "origin")
          (originOf ⟨"https", "embedsports.top"⟩) ∧
    jsGet (enrichHeaders goParseURL "https://embedsports.top/embed/one"
        [("sid", "abc")] [("referer", "https://already.example/")]) "cookie"
      = (if ([("sid", "abc")] : List (String × String)).length > 0 then
          jsOr (jsGet [("referer", "https://already.example/")] "cookie")
            (cookieHeaderOf [("sid", "abc")])
        else jsGet [("referer", "https://already.example/")] "cookie") :=
  C3_candidate_header_enrichment goParseURL "https://embedsports.top/embed/one"
    [("sid", "abc")] [("referer", "https://already.example/")]
    ⟨"https", "embedsports.top"⟩ (by decide)

/-! ## Claim C9 -/

/-- C9: the diagnostic sink never affects control flow or results — for any
two sinks (of any state types, a no-op sink modelling `nil` included) and
any fixed external-world outcomes, `extractM3U8Lite` returns the same
playlist URL / header map / error, and `LaunchMPVWithHeaders` the same
success or error; only the accumulated log state differs. -/
theorem C9_sink_never_affects_results {σ₁ σ₂ : Type}
    (emit₁ : String → σ₁ → σ₁) (emit₂ : String → σ₂ → σ₂) (s₁ : σ₁) (s₂ : σ₂)
    (embedURL : String) (w : ExtractorWorld) (m3u8 : String) (hdrs : HeaderMap)
    (attachOutput : Bool) (startErr waitErr : Option String) (pid : Nat) :
    (extractM3U8LiteTrace emit₁ s₁ embedURL w).1
      = (extractM3U8LiteTrace emit₂ s₂ embedURL w).1 ∧
    (launchMPVTrace emit₁ s₁ m3u8 hdrs attachOutput startErr waitErr pid).1
      = (launchMPVTrace emit₂ s₂ m3u8 hdrs attachOutput startErr waitErr pid).1 := by
  refine ⟨?_, ?_⟩
  · unfold extractM3U8LiteTrace
    dsimp only
    repeat' split
    all_goals rfl
  · unfold launchMPVTrace
    dsimp only
    repeat' split
    all_goals rfl

end StreamedTUI
